import Mathlib

/-!
Verification of the profanity filter and the realtime list-mirror logic of
the event companion app: the censor and detect operations built from the
fixed banned-word list, the insert, update and delete handlers of the vote
mirror, the vote write path, and the chat initialization query.
-/

namespace Spandan

/-- Word character in the sense of the regex metacharacter for words:
ASCII letters, digits and the underscore. -/
def isWordChar (c : Char) : Bool :=
  c.isAlpha || c.isDigit || c == '_'

/-- Whitespace in the sense of the regex whitespace metacharacter:
ASCII space, tab, newline, carriage return, vertical tab, form feed,
and the Unicode space characters. -/
def isSpaceChar (c : Char) : Bool :=
  c == ' ' || c == '\t' || c == '\n' || c == '\r'
  || c.toNat == 11 || c.toNat == 12 || c.toNat == 0xa0 || c.toNat == 0x1680
  || (Nat.ble 0x2000 c.toNat && Nat.ble c.toNat 0x200a)
  || c.toNat == 0x2028 || c.toNat == 0x2029 || c.toNat == 0x202f
  || c.toNat == 0x205f || c.toNat == 0x3000 || c.toNat == 0xfeff

/-- The separator character class inserted between letters of a banned
word by createPattern: whitespace, period, underscore, hyphen. -/
def isSep (c : Char) : Bool := isSpaceChar c || c == '.' || c == '_' || c == '-'

/-- The leetspeak substitution map of createPattern: each mapped letter
becomes a character class, any other character stands for itself. -/
def leetClass : Char → List Char
  | 'a' => ['a', '@', '4']
  | 'e' => ['e', '3']
  | 'i' => ['i', '1', '!']
  | 'o' => ['o', '0']
  | 's' => ['s', '$', '5']
  | 't' => ['t', '7']
  | 'l' => ['l', '1']
  | c => [c]

/-- Case-insensitive membership of a character in a character class, as
compiled with the case-insensitive flag: all class members are lowercase
ASCII, so the candidate character is lowercased before comparison. -/
def matchesClass (cls : List Char) (c : Char) : Bool := cls.contains c.toLower

/-- A compiled pattern: the list of character classes of the word's
letters; an optional separator run is accepted between consecutive
classes and the whole match is anchored by word boundaries. -/
abbrev Pat := List (List Char)

def patternOf (w : List Char) : Pat := w.map leetClass

/-- The fixed banned word list of the source. -/
def BANNED_WORDS : List String :=
  ["fuck", "shit", "ass", "bitch", "damn", "hell", "crap",
   "dick", "cock", "pussy", "bastard", "slut", "whore",
   "fag", "retard", "nigger", "cunt", "piss", "bollocks",
   "wanker", "twat", "arse", "bloody", "bugger", "chutiya",
   "madarchod", "behenchod", "bhenchod", "gaand", "lund", "randi",
   "harami", "saala", "kamina", "kutta", "kutti", "chut"]

/-- The compiled patterns, one per banned word, in list order. -/
def patterns : List Pat := BANNED_WORDS.map (fun w => patternOf w.data)

/-- Consume the longest prefix of separator characters, returning the
consumed characters and the remainder. -/
def skipSeps : List Char → List Char × List Char
  | [] => ([], [])
  | c :: rest =>
    if isSep c then
      let (s, r) := skipSeps rest
      (c :: s, r)
    else ([], c :: rest)

/-- Match the remaining classes of a pattern, each preceded by an optional
separator run; the separator class and every letter class are disjoint, so
the greedy separator run never needs backtracking. Returns the consumed
characters and the remainder. -/
def matchTail : Pat → List Char → Option (List Char × List Char)
  | [], rest => some ([], rest)
  | cls :: more, rest =>
    let (seps, rest1) := skipSeps rest
    match rest1 with
    | [] => none
    | c :: rest2 =>
      if matchesClass cls c then
        match matchTail more rest2 with
        | some (cs, r) => some (seps ++ c :: cs, r)
        | none => none
      else none

/-- Match all classes of a pattern at the very start of the input: the
first class must match the first character, later classes may be preceded
by separator runs. -/
def matchClasses : Pat → List Char → Option (List Char × List Char)
  | [], _ => none
  | _ :: _, [] => none
  | cls :: more, c :: rest =>
    if matchesClass cls c then
      match matchTail more rest with
      | some (cs, r) => some (c :: cs, r)
      | none => none
    else none

def isWordOpt : Option Char → Bool
  | some c => isWordChar c
  | none => false

/-- A word boundary stands between two positions exactly when one side is
a word character and the other is not; the edges of the string count as
non-word. -/
def boundaryB (a b : Option Char) : Bool := isWordOpt a != isWordOpt b

/-- Attempt a match of the pattern starting at the head of the input,
checking the word-boundary anchors on both ends; prev is the character
immediately before the attempted position in the original string. -/
def tryMatch (p : Pat) (prev : Option Char) (l : List Char) :
    Option (List Char × List Char) :=
  match matchClasses p l with
  | some (cs, r) =>
    if boundaryB prev cs.head? && boundaryB cs.getLast? r.head? then some (cs, r)
    else none
  | none => none

/-- Fuel-indexed scan of the replace operation with a global pattern:
walk the string left to right; at each position attempt a match (the
character before the position is prev, taken from the original string);
on a match emit the first matched character followed by one asterisk per
remaining matched character and resume immediately after the match, with
prev the last matched character of the original string; otherwise emit
the character and advance by one. The fuel only serves termination and is
irrelevant whenever it is at least the length of the input. -/
def replaceScanF (p : Pat) : Nat → Option Char → List Char → List Char
  | 0, _, l => l
  | _ + 1, _, [] => []
  | fuel + 1, prev, c :: rest =>
    match tryMatch p prev (c :: rest) with
    | some (m :: ms, r) =>
      m :: (List.replicate ms.length '*' ++ replaceScanF p fuel (m :: ms).getLast? r)
    | some ([], _) => c :: replaceScanF p fuel (some c) rest
    | none => c :: replaceScanF p fuel (some c) rest

/-- One global-replace pass of a single rule over the string. -/
def replaceScan (p : Pat) (prev : Option Char) (l : List Char) : List Char :=
  replaceScanF p l.length prev l

/-- The censorMessage function: fold every rule, in list order, over the
current string state, each rule performing its own full replace pass. -/
def censorList (l : List Char) : List Char :=
  patterns.foldl (fun acc p => replaceScan p none acc) l

def censorMessage (s : String) : String := String.mk (censorList s.data)

/-- Whether some position of the string carries a match of the pattern;
prev is the character just before the scanned suffix. -/
def existsMatch (p : Pat) : Option Char → List Char → Bool
  | _, [] => false
  | prev, c :: rest => (tryMatch p prev (c :: rest)).isSome || existsMatch p (some c) rest

/-- Whether any compiled rule has a match somewhere in the string. -/
def anyRuleMatches (s : String) : Bool :=
  patterns.any (fun p => existsMatch p none s.data)

/-- Search for the first match at an index at least start, returning the
end index of that match; idx is the index of the head of the suffix and
prev the character before it in the original string. -/
def searchAux (p : Pat) : Option Char → List Char → Nat → Nat → Option Nat
  | _, [], _, _ => none
  | prev, c :: rest, idx, start =>
    if start ≤ idx then
      match tryMatch p prev (c :: rest) with
      | some (cs, _) => some (idx + cs.length)
      | none => searchAux p (some c) rest (idx + 1) start
    else searchAux p (some c) rest (idx + 1) start

/-- The test method of a global regular expression: search starting at
the stored lastIndex; on success return true and store the end of the
match as the new lastIndex, on failure return false and reset it to 0. -/
def testFrom (p : Pat) (l : List Char) (li : Nat) : Bool × Nat :=
  if li ≤ l.length then
    match searchAux p none l 0 li with
    | some e => (true, e)
    | none => (false, 0)
  else (false, 0)

/-- The containsProfanity loop over the compiled module-level patterns:
probe each pattern in list order with its persistent lastIndex,
short-circuiting on the first hit; the state list carries one lastIndex
per pattern and is threaded between calls because the compiled patterns
are module-level and carry the global flag. -/
def cpAux : List Pat → List Nat → List Char → Bool × List Nat
  | [], st, _ => (false, st)
  | p :: ps, st, l =>
    let (b, li) := testFrom p l (st.headD 0)
    if b then (true, li :: st.tail)
    else
      let (res, st2) := cpAux ps st.tail l
      (res, li :: st2)

/-- The lastIndex state of every compiled pattern at module load: zero. -/
def initState : List Nat := List.replicate patterns.length 0

/-- One call of containsProfanity given the current module state of the
compiled patterns; returns the boolean and the state after the call. -/
def containsProfanity (s : String) (st : List Nat) : Bool × List Nat :=
  cpAux patterns st s.data

/-- Rows of the match_votes table as mirrored by the voting component. -/
structure VoteData where
  id : String
  match_id : String
  team_voted : String
  user_identifier : String
deriving DecidableEq

/-- The tagged realtime events delivered to the vote mirror. -/
inductive VoteEvent where
  | insert : VoteData → VoteEvent
  | update : VoteData → VoteEvent
  | delete : VoteData → VoteEvent
deriving DecidableEq

/-- The realtime handler of the voting component: an insert event appends
the new row, an update event rewrites in place every row whose id equals
the new row's id, a delete event drops every row whose id equals the old
row's id. -/
def applyEvent (votes : List VoteData) : VoteEvent → List VoteData
  | .insert n => votes ++ [n]
  | .update n => votes.map (fun v => if v.id == n.id then n else v)
  | .delete o => votes.filter (fun v => v.id != o.id)

def applyEvents (votes : List VoteData) (es : List VoteEvent) : List VoteData :=
  es.foldl applyEvent votes

/-- Number of entries of the mirror carrying a given identifier. -/
def countWithId (votes : List VoteData) (i : String) : Nat :=
  (votes.filter (fun v => v.id == i)).length

/-- The remote write issued by one invocation of handleVote. -/
inductive WriteAction where
  | noop : WriteAction
  | updateRow : String → String → WriteAction
  | insertRow : String → String → String → WriteAction
deriving DecidableEq

/-- The decision logic of handleVote: look up the local voter's entry in
the mirrored votes of the match; when present with the same choice issue
nothing, when present with a different choice issue an update of that row,
when absent issue an insert. -/
def handleVote (matchId : String) (votes : List VoteData)
    (userIdentifier team : String) : WriteAction :=
  match votes.find? (fun v => v.user_identifier == userIdentifier) with
  | some existing =>
    if existing.team_voted == team then .noop
    else .updateRow existing.id team
  | none => .insertRow matchId team userIdentifier

/-- Effect of a write on the remote table: an update rewrites team_voted
of every row with the given id, an insert appends a row whose id is the
server-generated fresh identifier. -/
def applyWrite (table : List VoteData) (freshId : String) :
    WriteAction → List VoteData
  | .noop => table
  | .updateRow rid team =>
    table.map (fun v => if v.id == rid then { v with team_voted := team } else v)
  | .insertRow m t u =>
    table ++ [{ id := freshId, match_id := m, team_voted := t, user_identifier := u }]

/-- Rows of the table belonging to one match, the scope of the mirror. -/
def rowsFor (m : String) (table : List VoteData) : List VoteData :=
  table.filter (fun v => v.match_id == m)

/-- Rows of the chat_messages table as fetched by the chat component. -/
structure ChatMessage where
  id : String
  sport_id : String
  message : String
  username : String
  created_at : Nat
deriving DecidableEq

/-- Ordering of chat rows by creation time, the order clause of the
initialization query. -/
def msgLe (a b : ChatMessage) : Prop := a.created_at ≤ b.created_at

instance : DecidableRel msgLe :=
  fun a b => inferInstanceAs (Decidable (a.created_at ≤ b.created_at))

instance : IsTotal ChatMessage msgLe :=
  ⟨fun a b => Nat.le_total a.created_at b.created_at⟩

instance : IsTrans ChatMessage msgLe :=
  ⟨fun _ _ _ => Nat.le_trans⟩

/-- The initialization bulk read of the chat component: the rows of the
parent sport ordered ascending by creation time, limited to 100 rows. -/
def fetchMessages (table : List ChatMessage) (sportId : String) : List ChatMessage :=
  (List.insertionSort msgLe (table.filter (fun m => m.sport_id == sportId))).take 100

/-- Handling of the bulk-read response: a non-null payload replaces the
local collection wholesale, a null payload leaves it unchanged. -/
def applyFetchResult (old : List ChatMessage) :
    Option (List ChatMessage) → List ChatMessage
  | some d => d
  | none => old

/-- Relation between an output character and the input character at the
same position: censoring either keeps the character or stars it. -/
def starRel (a b : Char) : Prop := a = b ∨ a = '*'

/-- Concrete rows used by the counterexamples and witnesses. -/
def v1 : VoteData :=
  { id := "r1", match_id := "m1", team_voted := "A", user_identifier := "u1" }

def v1b : VoteData :=
  { id := "r1", match_id := "m1", team_voted := "B", user_identifier := "u1" }

def v2 : VoteData :=
  { id := "r2", match_id := "m1", team_voted := "B", user_identifier := "u2" }

def vOther : VoteData :=
  { id := "r9", match_id := "m2", team_voted := "X", user_identifier := "u9" }

/-- Row constructor used to phrase the insert effect of the write path. -/
def mkVote (fid m t u : String) : VoteData :=
  { id := fid, match_id := m, team_voted := t, user_identifier := u }

/-- Table with 101 rows of one sport, exceeding the query limit. -/
def bigChatTable : List ChatMessage :=
  (List.range 101).map (fun i =>
    { id := toString i, sport_id := "s", message := "m", username := "n", created_at := i })

/-- Small table used to instantiate the amended bulk-read theorem. -/
def chatDemoTable : List ChatMessage :=
  [{ id := "a", sport_id := "s", message := "x", username := "n", created_at := 2 },
   { id := "b", sport_id := "s", message := "y", username := "n", created_at := 1 },
   { id := "c", sport_id := "t", message := "z", username := "n", created_at := 0 }]

/-- Run detector used to state the caveat of the idempotence claim:
maximal runs of consecutive elements satisfying the predicate. -/
def runsWhereGo {α : Type} (q : α → Bool) : List α → List α → List (List α)
  | acc, [] => if acc.isEmpty then [] else [acc.reverse]
  | acc, c :: rest =>
    if q c then runsWhereGo q (c :: acc) rest
    else if acc.isEmpty then runsWhereGo q [] rest
    else acc.reverse :: runsWhereGo q [] rest

def runsWhere {α : Type} (q : α → Bool) (l : List α) : List (List α) :=
  runsWhereGo q [] l

/-- The censored asterisk runs of an input: the segments of the original
string at the maximal position runs that censoring turned into
asterisks. -/
def censoredRuns (x : List Char) : List (List Char) :=
  (runsWhere (fun pr => pr.1 == '*') ((censorList x).zip x)).map
    (fun run => run.map Prod.snd)

/-- Whether no banned word occurs as a contiguous substring of any
censored asterisk run of the input. -/
def noBannedInCensoredRuns (x : String) : Bool :=
  (censoredRuns x.data).all (fun run =>
    BANNED_WORDS.all (fun w => !(decide (List.IsInfix w.data run))))

theorem skipSeps_eq (l : List Char) : (skipSeps l).1 ++ (skipSeps l).2 = l := by
  induction l with
  | nil => rfl
  | cons c rest ih =>
    by_cases h : isSep c = true
    · simp [skipSeps, h, ih]
    · simp [skipSeps, h]

theorem matchTail_eq (p : Pat) :
    ∀ l cs r, matchTail p l = some (cs, r) → cs ++ r = l := by
  induction p with
  | nil =>
    intro l cs r h
    simp [matchTail] at h
    simp [h.1, h.2]
  | cons cls more ih =>
    intro l cs r h
    simp only [matchTail] at h
    rcases h1 : skipSeps l with ⟨seps, rest1⟩
    rw [h1] at h
    match hr : rest1 with
    | [] => simp [hr] at h
    | c :: rest2 =>
      simp only at h
      by_cases hm : matchesClass cls c = true
      · simp only [hm, if_true] at h
        match h2 : matchTail more rest2 with
        | some (cs2, r2) =>
          rw [h2] at h
          simp only [Option.some.injEq, Prod.mk.injEq] at h
          have h3 := ih rest2 cs2 r2 h2
          have h4 := skipSeps_eq l
          rw [h1] at h4
          simp only at h4
          rw [← h.1, ← h.2, ← h4, ← h3]
          simp
        | none => rw [h2] at h; simp at h
      · simp [hm] at h

theorem matchClasses_eq (p : Pat) (l cs r : List Char)
    (h : matchClasses p l = some (cs, r)) : cs ++ r = l ∧ cs ≠ [] := by
  match p, l with
  | [], _ => simp [matchClasses] at h
  | _ :: _, [] => simp [matchClasses] at h
  | cls :: more, c :: rest =>
    simp only [matchClasses] at h
    by_cases hm : matchesClass cls c = true
    · simp only [hm, if_true] at h
      match h2 : matchTail more rest with
      | some (cs2, r2) =>
        rw [h2] at h
        simp only [Option.some.injEq, Prod.mk.injEq] at h
        have h3 := matchTail_eq more rest cs2 r2 h2
        constructor
        · simp [← h.1, ← h.2, h3]
        · rw [← h.1]; simp
      | none => rw [h2] at h; simp at h
    · simp [hm] at h

theorem tryMatch_eq (p : Pat) (prev : Option Char) (l cs r : List Char)
    (h : tryMatch p prev l = some (cs, r)) : cs ++ r = l ∧ cs ≠ [] := by
  simp only [tryMatch] at h
  match h2 : matchClasses p l with
  | some (cs2, r2) =>
    rw [h2] at h
    by_cases hb : (boundaryB prev cs2.head? && boundaryB cs2.getLast? r2.head?) = true
    · simp only [hb, if_true, Option.some.injEq, Prod.mk.injEq] at h
      rw [← h.1, ← h.2]
      exact matchClasses_eq p l cs2 r2 h2
    · simp [hb] at h
  | none => rw [h2] at h; simp at h

theorem starRel_trans {a b c : Char} (h1 : starRel a b) (h2 : starRel b c) :
    starRel a c := by
  rcases h1 with h1 | h1
  · rcases h2 with h2 | h2
    · exact Or.inl (h1.trans h2)
    · exact Or.inr (h1.trans h2)
  · exact Or.inr h1

theorem string_length_data (s : String) : s.length = s.data.length := rfl

theorem censorMessage_data (s : String) : (censorMessage s).data = censorList s.data := by
  rw [censorMessage]

theorem forall2_star_refl (l : List Char) : List.Forall₂ starRel l l := by
  induction l with
  | nil => exact List.Forall₂.nil
  | cons c cs ih => exact List.Forall₂.cons (Or.inl rfl) ih

theorem replicate_star_forall2 (ms : List Char) :
    List.Forall₂ starRel (List.replicate ms.length '*') ms := by
  induction ms with
  | nil => exact List.Forall₂.nil
  | cons m ms ih => exact List.Forall₂.cons (Or.inr rfl) ih

theorem forall2_star_trans :
    ∀ {a b c : List Char}, List.Forall₂ starRel a b → List.Forall₂ starRel b c →
      List.Forall₂ starRel a c
  | _, _, _, List.Forall₂.nil, List.Forall₂.nil => List.Forall₂.nil
  | _, _, _, List.Forall₂.cons h1 t1, List.Forall₂.cons h2 t2 =>
    List.Forall₂.cons (starRel_trans h1 h2) (forall2_star_trans t1 t2)

theorem replaceScanF_refines (p : Pat) :
    ∀ fuel (l : List Char) prev, l.length ≤ fuel →
      List.Forall₂ starRel (replaceScanF p fuel prev l) l := by
  intro fuel
  induction fuel with
  | zero =>
    intro l prev _
    exact forall2_star_refl l
  | succ fuel ih =>
    intro l prev hlen
    match l with
    | [] => simp only [replaceScanF]; exact List.Forall₂.nil
    | c :: rest =>
      rw [replaceScanF]
      match htm : tryMatch p prev (c :: rest) with
      | some (m :: ms, r) =>
        simp only
        obtain ⟨heq, -⟩ := tryMatch_eq p prev (c :: rest) (m :: ms) r htm
        have hmc : m = c := by
          have := congrArg (fun l => l.head?) heq
          simpa using this
        have hrest : ms ++ r = rest := by
          have := congrArg (fun l => l.tail) heq
          simpa using this
        have hr : r.length ≤ fuel := by
          have := congrArg List.length hrest
          simp [List.length_append] at this
          simp at hlen
          omega
        have htail : List.Forall₂ starRel
            (List.replicate ms.length '*' ++ replaceScanF p fuel (m :: ms).getLast? r)
            (ms ++ r) :=
          List.rel_append (replicate_star_forall2 ms) (ih r (m :: ms).getLast? hr)
        rw [← hrest]
        exact List.Forall₂.cons (Or.inl hmc) htail
      | some ([], r) =>
        simp only
        exact List.Forall₂.cons (Or.inl rfl)
          (ih rest (some c) (by simpa using Nat.le_of_succ_le_succ hlen))
      | none =>
        simp only
        exact List.Forall₂.cons (Or.inl rfl)
          (ih rest (some c) (by simpa using Nat.le_of_succ_le_succ hlen))

theorem replaceScan_refines (p : Pat) (prev : Option Char) (l : List Char) :
    List.Forall₂ starRel (replaceScan p prev l) l :=
  replaceScanF_refines p l.length l prev (Nat.le_refl _)

theorem censorList_refines (l : List Char) :
    List.Forall₂ starRel (censorList l) l := by
  have hgen : ∀ (ps : List Pat) (acc : List Char),
      List.Forall₂ starRel acc l →
      List.Forall₂ starRel (ps.foldl (fun acc p => replaceScan p none acc) acc) l := by
    intro ps
    induction ps with
    | nil => intro acc h; simpa using h
    | cons p ps ih =>
      intro acc h
      simp only [List.foldl_cons]
      exact ih _ (forall2_star_trans (replaceScan_refines p none acc) h)
  exact hgen patterns l (forall2_star_refl l)

theorem censorList_length (l : List Char) : (censorList l).length = l.length :=
  (censorList_refines l).length_eq

theorem replaceScanF_id (p : Pat) :
    ∀ fuel (l : List Char) prev, l.length ≤ fuel →
      existsMatch p prev l = false → replaceScanF p fuel prev l = l := by
  intro fuel
  induction fuel with
  | zero => intro l prev _ _; rfl
  | succ fuel ih =>
    intro l prev hlen hnm
    match l with
    | [] => rfl
    | c :: rest =>
      simp only [existsMatch, Bool.or_eq_false_iff] at hnm
      have htm : tryMatch p prev (c :: rest) = none :=
        Option.not_isSome_iff_eq_none.mp (by simp [hnm.1])
      rw [replaceScanF, htm]
      simp only [List.cons.injEq, true_and]
      exact ih rest (some c) (by simpa using Nat.le_of_succ_le_succ hlen) hnm.2

theorem replaceScan_id (p : Pat) (prev : Option Char) (l : List Char)
    (h : existsMatch p prev l = false) : replaceScan p prev l = l :=
  replaceScanF_id p l.length l prev (Nat.le_refl _) h

theorem censorList_id (l : List Char)
    (h : ∀ p ∈ patterns, existsMatch p none l = false) : censorList l = l := by
  have hgen : ∀ (ps : List Pat), (∀ p ∈ ps, existsMatch p none l = false) →
      ps.foldl (fun acc p => replaceScan p none acc) l = l := by
    intro ps
    induction ps with
    | nil => intro _; rfl
    | cons p ps ih =>
      intro hps
      simp only [List.foldl_cons]
      rw [replaceScan_id p none l (hps p (by simp))]
      exact ih (fun q hq => hps q (by simp [hq]))
  exact hgen patterns h

theorem searchAux_isSome (p : Pat) :
    ∀ (l : List Char) prev idx,
      (searchAux p prev l idx 0).isSome = existsMatch p prev l := by
  intro l
  induction l with
  | nil => intro prev idx; rfl
  | cons c rest ih =>
    intro prev idx
    rw [searchAux, existsMatch]
    simp only [Nat.zero_le, if_true]
    match htm : tryMatch p prev (c :: rest) with
    | some (cs, r) => simp [htm]
    | none => simp [htm, ih (some c) (idx + 1)]

theorem testFrom_zero (p : Pat) (l : List Char) :
    (testFrom p l 0).1 = existsMatch p none l := by
  rw [testFrom]
  simp only [Nat.zero_le, if_true]
  match hs : searchAux p none l 0 0 with
  | some e => simp [← searchAux_isSome p l none 0, hs]
  | none => simp [← searchAux_isSome p l none 0, hs]

theorem cpAux_init :
    ∀ (ps : List Pat) (l : List Char),
      (cpAux ps (List.replicate ps.length 0) l).1 =
        ps.any (fun p => existsMatch p none l) := by
  intro ps
  induction ps with
  | nil => intro l; rfl
  | cons p ps ih =>
    intro l
    rw [cpAux]
    simp only [List.length_cons, List.replicate_succ, List.headD_cons, List.tail_cons]
    match htf : testFrom p l 0 with
    | (b, li) =>
      have hb : b = existsMatch p none l := by
        have := testFrom_zero p l
        rw [htf] at this
        exact this
      match hbv : b with
      | true => simp [htf, List.any_cons, ← hb, hbv]
      | false =>
        simp only [htf, List.any_cons, ← hb, hbv, Bool.false_or, if_false]
        match hrec : cpAux ps (List.replicate ps.length 0) l with
        | (res, st2) =>
          have := ih l
          rw [hrec] at this
          simpa using this

theorem map_ite_id {α : Type} (l : List α) (g : α → α) (q : α → Bool)
    (h : ∀ v ∈ l, q v = false) :
    l.map (fun v => if q v then g v else v) = l := by
  induction l with
  | nil => rfl
  | cons a as ih =>
    have ha := h a (by simp)
    simp [ha]
    exact ih (fun v hv => h v (by simp [hv]))

theorem bne_true_eq_false {a b : String} (h : (a != b) = true) : (a == b) = false := by
  simpa [bne] using h

theorem delete_all_ne (votes : List VoteData) (o : VoteData) :
    (applyEvent votes (VoteEvent.delete o)).all (fun v => v.id != o.id) = true := by
  simp only [applyEvent, List.all_eq_true, List.mem_filter]
  intro v hv
  exact hv.2

/-- Claim C1 as stated is false on the code: the INSERT branch of the
realtime handler appends the new row without checking whether an entry
with the same identifier is present, so two insert events carrying the
same identifier leave two entries with that identifier, not one. -/
theorem c1_counterexample :
    applyEvent (applyEvent [] (VoteEvent.insert v1)) (VoteEvent.insert v1) = [v1, v1] ∧
    countWithId (applyEvent (applyEvent [] (VoteEvent.insert v1)) (VoteEvent.insert v1)) "r1" = 2 ∧
    countWithId (applyEvent (applyEvent [] (VoteEvent.insert v1)) (VoteEvent.insert v1)) "r1" ≠ 1 := by
  refine ⟨by decide, by decide, by decide⟩

/-- Claim C1 amended: for every mirror state and every insert event the
handler appends the new row at the end of the collection unconditionally,
so after two insert events carrying the same identifier the mirror holds
two more entries with that identifier than before; identifiers within the
mirror are not kept unique by insert events. -/
theorem c1_insert_appends_unconditionally (votes : List VoteData) (n : VoteData) :
    applyEvent votes (VoteEvent.insert n) = votes ++ [n] ∧
    countWithId (applyEvent (applyEvent votes (VoteEvent.insert n)) (VoteEvent.insert n)) n.id
      = countWithId votes n.id + 2 := by
  refine ⟨rfl, ?_⟩
  simp [applyEvent, countWithId, List.filter_append]

/-- Claim C2 as stated is false on the code: the UPDATE branch rewrites
matching entries in place but, when no entry carries the new row's
identifier, it leaves the mirror unchanged instead of appending the row
as an insert would. -/
theorem c2_counterexample :
    applyEvent [] (VoteEvent.update v1) = [] ∧
    applyEvent [] (VoteEvent.update v1) ≠ [v1] := by
  refine ⟨rfl, by decide⟩

/-- Claim C2 amended: an update event replaces in place every entry whose
identifier equals the new row's identifier and keeps the collection's
length; when no entry carries that identifier the event is a no-op, not
an insert. -/
theorem c2_update_replaces_in_place (votes : List VoteData) (n : VoteData) :
    ((votes.all fun v => v.id != n.id) = true →
      applyEvent votes (VoteEvent.update n) = votes) ∧
    (∀ v ∈ votes, v.id = n.id → n ∈ applyEvent votes (VoteEvent.update n)) ∧
    (applyEvent votes (VoteEvent.update n)).length = votes.length := by
  refine ⟨?_, ?_, ?_⟩
  · intro h
    rw [List.all_eq_true] at h
    exact map_ite_id votes (fun _ => n) (fun v => v.id == n.id)
      (fun v hv => bne_true_eq_false (h v hv))
  · intro v hv hid
    have : (if v.id == n.id then n else v) ∈
        votes.map (fun v => if v.id == n.id then n else v) :=
      List.mem_map_of_mem _ hv
    simpa [applyEvent, hid] using this
  · simp [applyEvent]

theorem c2_witness :
    applyEvent [v2] (VoteEvent.update v1b) = [v2] ∧
    v1b ∈ applyEvent [v1] (VoteEvent.update v1b) :=
  ⟨(c2_update_replaces_in_place [v2] v1b).1 (by decide),
   (c2_update_replaces_in_place [v1] v1b).2.1 v1 (by decide) (by decide)⟩

/-- Claim C6: a delete event removes every entry whose identifier equals
the old row's identifier and is a no-op when none is present; hence an
insert of identifier X followed, after any intervening events, by a
delete of identifier X leaves a mirror with no entry whose identifier is
X. -/
theorem c6_delete_removes_identifier (votes : List VoteData) (o : VoteData) :
    ((applyEvent votes (VoteEvent.delete o)).all (fun v => v.id != o.id) = true) ∧
    ((votes.all fun v => v.id != o.id) = true →
      applyEvent votes (VoteEvent.delete o) = votes) ∧
    (∀ (es : List VoteEvent) (n : VoteData), n.id = o.id →
      (applyEvents (applyEvent votes (VoteEvent.insert n)) (es ++ [VoteEvent.delete o])).all
        (fun v => v.id != n.id) = true) := by
  refine ⟨delete_all_ne votes o, ?_, ?_⟩
  · intro h
    rw [List.all_eq_true] at h
    exact List.filter_eq_self.mpr h
  · intro es n hid
    rw [hid]
    simp only [applyEvents, List.foldl_append, List.foldl_cons, List.foldl_nil]
    exact delete_all_ne _ o

theorem c6_witness :
    (applyEvents (applyEvent [v2] (VoteEvent.insert v1))
        ([VoteEvent.update v2] ++ [VoteEvent.delete v1])).all
      (fun v => v.id != v1.id) = true ∧
    applyEvent [v2] (VoteEvent.delete v1) = [v2] :=
  ⟨(c6_delete_removes_identifier [v2] v1).2.2 [VoteEvent.update v2] v1 rfl,
   (c6_delete_removes_identifier [v2] v1).2.1 (by decide)⟩

/-- Claim C4: the vote write path. When the local voter's mirrored entry
carries the same choice, no remote write is issued and the table is
unchanged; and casting team A then team B on the same match, starting
from a table with no row for this voter and match, leaves exactly one
row for that match and voter, with team B as its choice. -/
theorem c4_vote_write_path :
    (∀ (m : String) (votes : List VoteData) (u t : String) (v : VoteData)
        (table : List VoteData) (fid : String),
      votes.find? (fun x => x.user_identifier == u) = some v →
      v.team_voted = t →
      handleVote m votes u t = WriteAction.noop ∧
      applyWrite table fid (handleVote m votes u t) = table) ∧
    (∀ (table : List VoteData) (m u A B fid : String),
      (rowsFor m table).all (fun v => v.user_identifier != u) = true →
      table.all (fun v => v.id != fid) = true →
      A ≠ B →
      (applyWrite (applyWrite table fid (handleVote m (rowsFor m table) u A)) fid
          (handleVote m
            (rowsFor m (applyWrite table fid (handleVote m (rowsFor m table) u A))) u B)).filter
        (fun v => v.match_id == m && v.user_identifier == u)
        = [mkVote fid m B u]) := by
  constructor
  · intro m votes u t v table fid hfind hteam
    have h1 : handleVote m votes u t = WriteAction.noop := by
      rw [handleVote, hfind]
      simp [hteam]
    exact ⟨h1, by rw [h1]; rfl⟩
  · intro table m u A B fid hA hf hAB
    have hA2 : ∀ x ∈ rowsFor m table, (x.user_identifier == u) = false := by
      rw [List.all_eq_true] at hA
      intro x hx
      exact bne_true_eq_false (hA x hx)
    have hfind1 : (rowsFor m table).find? (fun x => x.user_identifier == u) = none :=
      List.find?_eq_none.mpr (fun x hx => by simp [hA2 x hx])
    have h1 : handleVote m (rowsFor m table) u A = WriteAction.insertRow m A u := by
      rw [handleVote, hfind1]
    have h2 : applyWrite table fid (handleVote m (rowsFor m table) u A)
        = table ++ [mkVote fid m A u] := by
      rw [h1]; rfl
    rw [h2]
    have h3 : rowsFor m (table ++ [mkVote fid m A u])
        = rowsFor m table ++ [mkVote fid m A u] := by
      rw [rowsFor, rowsFor, List.filter_append]
      simp [mkVote]
    rw [h3]
    have h4 : (rowsFor m table ++ [mkVote fid m A u]).find?
          (fun x => x.user_identifier == u) = some (mkVote fid m A u) := by
      rw [List.find?_append, hfind1]
      simp [mkVote, List.find?]
    have hAB2 : (A == B) = false := beq_eq_false_iff_ne.mpr hAB
    have h5 : handleVote m (rowsFor m table ++ [mkVote fid m A u]) u B
        = WriteAction.updateRow fid B := by
      simp [handleVote, hfind1, mkVote, hAB]
    rw [h5]
    have h6 : applyWrite (table ++ [mkVote fid m A u]) fid (WriteAction.updateRow fid B)
        = table ++ [mkVote fid m B u] := by
      show (table ++ [mkVote fid m A u]).map
        (fun v => if v.id == fid then { v with team_voted := B } else v) = _
      rw [List.map_append]
      have hmap : table.map (fun v => if v.id == fid then { v with team_voted := B } else v)
          = table := by
        apply map_ite_id
        intro v hv
        rw [List.all_eq_true] at hf
        exact bne_true_eq_false (hf v hv)
      rw [hmap]
      simp [mkVote]
    rw [h6, List.filter_append]
    have h7 : table.filter (fun v => v.match_id == m && v.user_identifier == u) = [] := by
      apply List.filter_eq_nil_iff.mpr
      intro v hv hcontra
      rw [Bool.and_eq_true] at hcontra
      have hvm : v.match_id = m := eq_of_beq hcontra.1
      have hvmem : v ∈ rowsFor m table :=
        List.mem_filter.mpr ⟨hv, by simp [hvm]⟩
      rw [hA2 v hvmem] at hcontra
      exact Bool.false_ne_true hcontra.2
    rw [h7]
    simp [mkVote]

theorem c4_witness :
    (handleVote "m1" [v1] "u1" "A" = WriteAction.noop ∧
     applyWrite [v1] "r9" (handleVote "m1" [v1] "u1" "A") = [v1]) ∧
    (applyWrite (applyWrite [vOther] "r5" (handleVote "m1" (rowsFor "m1" [vOther]) "u1" "TA"))
        "r5"
        (handleVote "m1"
          (rowsFor "m1"
            (applyWrite [vOther] "r5" (handleVote "m1" (rowsFor "m1" [vOther]) "u1" "TA")))
          "u1" "TB")).filter
      (fun v => v.match_id == "m1" && v.user_identifier == "u1")
      = [mkVote "r5" "m1" "TB" "u1"] :=
  ⟨c4_vote_write_path.1 "m1" [v1] "u1" "A" v1 [v1] "r9" (by decide) rfl,
   c4_vote_write_path.2 [vOther] "m1" "u1" "TA" "TB" "r5" (by decide) (by decide) (by decide)⟩

/-- Claim C5 as stated is false on the code: the initialization query
carries a limit of 100 rows, so with 101 rows present the bulk read does
not return the current full set for the parent key. -/
theorem c5_counterexample :
    (fetchMessages bigChatTable "s").length = 100 ∧
    (bigChatTable.filter (fun msg => msg.sport_id == "s")).length = 101 ∧
    fetchMessages bigChatTable "s" ≠ bigChatTable.filter (fun msg => msg.sport_id == "s") := by
  refine ⟨by decide, by decide, ?_⟩
  intro h
  exact absurd (congrArg List.length h) (by decide)

/-- Claim C5 amended: the initialization bulk read returns the rows of
the parent key ordered by creation time, capped at 100 rows: it is
sorted, it is the full filtered set whenever that set has at most 100
rows, its length is the minimum of 100 and the filtered set's length,
and a successful response replaces the local collection wholesale while
a null response leaves it unchanged. -/
theorem c5_bulk_read_capped (table : List ChatMessage) (sid : String) :
    List.Sorted msgLe (fetchMessages table sid) ∧
    ((table.filter (fun msg => msg.sport_id == sid)).length ≤ 100 →
      (fetchMessages table sid).Perm (table.filter (fun msg => msg.sport_id == sid))) ∧
    (fetchMessages table sid).length
      = min 100 (table.filter (fun msg => msg.sport_id == sid)).length ∧
    (∀ old d, applyFetchResult old (some d) = d) ∧
    (∀ old, applyFetchResult old none = old) := by
  refine ⟨?_, ?_, ?_, fun old d => rfl, fun old => rfl⟩
  · exact List.Pairwise.sublist (List.take_sublist _ _) (List.sorted_insertionSort msgLe _)
  · intro hle
    have hlen : (List.insertionSort msgLe
        (table.filter (fun msg => msg.sport_id == sid))).length ≤ 100 := by
      rw [List.length_insertionSort]
      exact hle
    rw [fetchMessages, List.take_of_length_le hlen]
    exact List.perm_insertionSort msgLe _
  · rw [fetchMessages, List.length_take, List.length_insertionSort]

theorem c5_witness :
    List.Sorted msgLe (fetchMessages chatDemoTable "s") ∧
    (fetchMessages chatDemoTable "s").Perm
      (chatDemoTable.filter (fun msg => msg.sport_id == "s")) :=
  ⟨(c5_bulk_read_capped chatDemoTable "s").1,
   (c5_bulk_read_capped chatDemoTable "s").2.1 (by decide)⟩

/-- Claim C3: censorMessage rewrites the example input as the spec shows,
maps the empty string to itself, and returns any input unchanged when no
rule matches anywhere in it. -/
theorem c3_censor_examples_and_identity :
    censorMessage "this is sh1t" = "this is s***" ∧
    censorMessage "" = "" ∧
    (∀ s : String, anyRuleMatches s = false → censorMessage s = s) := by
  refine ⟨by decide, rfl, ?_⟩
  intro s h
  rw [censorMessage, censorList_id]
  intro p hp
  simp only [anyRuleMatches, List.any_eq_false] at h
  exact Bool.eq_false_iff.mpr (h p hp)

theorem c3_witness : censorMessage "hello" = "hello" :=
  c3_censor_examples_and_identity.2.2 "hello" (by decide)

/-- Claim C7: from the initial module state, containsProfanity returns
true exactly when some rule has a match in the string, the rules probed
in list order with a short circuit, and it returns false on the empty
string. -/
theorem c7_detect_iff_some_rule_matches :
    (∀ s : String, (containsProfanity s initState).1 = anyRuleMatches s) ∧
    (containsProfanity "" initState).1 = false := by
  constructor
  · intro s
    rw [containsProfanity, initState]
    exact cpAux_init patterns s.data
  · decide

set_option maxHeartbeats 2000000 in
/-- Claim C8 as stated is false on the code: for the input below the
censored asterisk run is the segment und, which contains no banned word
as a substring, yet a second censor pass still censors more, because the
first pass's asterisks create a fresh word boundary that lets an earlier
rule match on the second call. -/
theorem c8_counterexample :
    noBannedInCensoredRuns "hel.lund" = true ∧
    censorMessage "hel.lund" = "hel.l***" ∧
    censorMessage (censorMessage "hel.lund") = "h*******" ∧
    censorMessage (censorMessage "hel.lund") ≠ censorMessage "hel.lund" := by
  refine ⟨by decide, by decide, by decide, by decide⟩

/-- Claim C8 amended: a second application of censorMessage is not the
identity on outputs in general, even when the asterisk runs contain no
banned word; what holds is that the second pass can only censor further:
every position of the twice-censored string either equals the
once-censored character or is an asterisk, and the length is unchanged. -/
theorem c8_censor_star_monotone (s : String) :
    List.Forall₂ starRel (censorMessage (censorMessage s)).data (censorMessage s).data ∧
    (censorMessage (censorMessage s)).length = (censorMessage s).length := by
  constructor
  · rw [censorMessage_data (censorMessage s)]
    exact censorList_refines (censorMessage s).data
  · rw [string_length_data, string_length_data, censorMessage_data]
    exact censorList_length (censorMessage s).data

/-- Claim C9 is the intended behavior and the code breaks it: the
module-level patterns carry the global flag, and the test method then
advances each pattern's persistent lastIndex past a hit, so an immediate
second call on the same profane string resumes searching past the match
and reports false. -/
theorem c9_lastindex_state_leak :
    (containsProfanity "shit" initState).1 = true ∧
    (containsProfanity "shit" (containsProfanity "shit" initState).2).1 = false := by
  refine ⟨by decide, by decide⟩

/-- Claim C10: censorMessage preserves the length of its input, because
every replacement writes the first matched character plus one asterisk
per remaining matched character. -/
theorem c10_censor_preserves_length (s : String) :
    (censorMessage s).length = s.length := by
  rw [string_length_data, string_length_data, censorMessage_data]
  exact censorList_length s.data

end Spandan

